/-
Shallow embedding of the MovieVis layout algorithm
(src/MovieVis/src/DefaultLayoutProvider.cpp).

C++ `double` values are modelled as rationals; the C++ hash maps
(`directorXPositions`, `actorCurvesByActor`, `actorCurvesByMoviePair`)
are modelled as association lists kept in insertion order.  Repository
classes whose sources are not part of the given file (BezierCurve,
MoviePair, the release-date sort predicate, the peek numerics helpers
`sign` and `Vector3d::normalize`) are modelled from the spec; each such
definition carries a doc comment saying so.
-/
import Mathlib

namespace MovieVis

/-- A 3d point or vector with rational coordinates.  Models peek's
`Point3d` / `Vector3d` value types (`double` components). -/
structure Vec3 where
  x : ℚ
  y : ℚ
  z : ℚ
deriving DecidableEq

instance : Add Vec3 := ⟨fun a b => ⟨a.x + b.x, a.y + b.y, a.z + b.z⟩⟩

instance : Sub Vec3 := ⟨fun a b => ⟨a.x - b.x, a.y - b.y, a.z - b.z⟩⟩

instance : Neg Vec3 := ⟨fun a => ⟨-a.x, -a.y, -a.z⟩⟩

instance : SMul ℚ Vec3 := ⟨fun c a => ⟨c * a.x, c * a.y, c * a.z⟩⟩

/-- Squared Euclidean norm of a vector. -/
def normSq (v : Vec3) : ℚ := v.x * v.x + v.y * v.y + v.z * v.z

/-- The perpendicular direction `(-v.y, v.x, v.z)` computed at
DefaultLayoutProvider.cpp line 127 (before normalization). -/
def perpDir (v : Vec3) : Vec3 := ⟨-v.y, v.x, v.z⟩

/-- A calendar date, modelled by its year and its day-of-year as the
boost accessors `year()` and `day_of_year()` return them
(`day_of_year` is 1-based and reaches 366 in leap years). -/
structure Date where
  year : ℕ
  dayOfYear : ℕ
deriving DecidableEq

/-- `theDate.year() + theDate.day_of_year() / 365.0`
(DefaultLayoutProvider.cpp line 26). -/
def dateAsYear (d : Date) : ℚ := (d.year : ℚ) + (d.dayOfYear : ℚ) / 365

/-- Strict chronological order on dates (lexicographic on year and
day-of-year, matching boost's date comparison). -/
def dateEarlier (d1 d2 : Date) : Prop :=
  d1.year < d2.year ∨ (d1.year = d2.year ∧ d1.dayOfYear < d2.dayOfYear)

instance (d1 d2 : Date) : Decidable (dateEarlier d1 d2) := by
  unfold dateEarlier
  exact inferInstance

/-- A movie: an identity, a release date, and a weak reference to its
director.  `director = none` models an unresolved (expired) director
reference: `getDirector().lock()` returns the null shared pointer, which
compares equal to null and unequal to every resolved director. -/
structure Movie where
  id : ℕ
  releaseDate : Date
  director : Option ℕ
deriving DecidableEq

/-- A cubic Bezier curve: four control points
(P0 start anchor, P1 start handle, P2 end handle, P3 end anchor). -/
structure BezierCurve where
  p0 : Vec3
  p1 : Vec3
  p2 : Vec3
  p3 : Vec3
deriving DecidableEq

/-- Linear interpolation between two points. -/
def lerp (a b : Vec3) (t : ℚ) : Vec3 := a + t • (b - a)

/-- Modelled from the spec: `BezierCurve::subdivideAt` (the BezierCurve
class is not part of the given source).  De Casteljau subdivision at
parameter `t`, producing the two half-curves whose concatenation
reproduces the original path (spec sections 3 and 4.4 and glossary). -/
def BezierCurve.subdivideAt (b : BezierCurve) (t : ℚ) : BezierCurve × BezierCurve :=
  let p01 := lerp b.p0 b.p1 t
  let p12 := lerp b.p1 b.p2 t
  let p23 := lerp b.p2 b.p3 t
  let p012 := lerp p01 p12 t
  let p123 := lerp p12 p23 t
  let p0123 := lerp p012 p123 t
  (⟨b.p0, p01, p012, p0123⟩, ⟨p0123, p123, p23, b.p3⟩)

/-- The geometry held by an ActorCurve: one curve initially, a pair of
half-curves after `setCurves` (overlap resolution). -/
inductive ActorCurveGeom where
  | single (c : BezierCurve) : ActorCurveGeom
  | split (c1 c2 : BezierCurve) : ActorCurveGeom
deriving DecidableEq

/-- An ActorCurve: an actor identity together with its geometry. -/
structure ActorCurve where
  actor : ℕ
  geom : ActorCurveGeom
deriving DecidableEq

/-- `ActorCurve::getFirstCurve`: the (first) stored curve. -/
def ActorCurve.getFirstCurve (ac : ActorCurve) : BezierCurve :=
  match ac.geom with
  | .single c => c
  | .split c1 _ => c1

/-- The point at which the whole ActorCurve starts. -/
def firstAnchorPt (ac : ActorCurve) : Vec3 :=
  match ac.geom with
  | .single c => c.p0
  | .split c1 _ => c1.p0

/-- The point at which the whole ActorCurve ends. -/
def lastAnchorPt (ac : ActorCurve) : Vec3 :=
  match ac.geom with
  | .single c => c.p3
  | .split _ c2 => c2.p3

/-- The midpoint-region junction of an ActorCurve: for a split curve the
shared junction of its halves, for a single curve the junction its
subdivision at `t = 1/2` would produce. -/
def midJunction (ac : ActorCurve) : Vec3 :=
  match ac.geom with
  | .single c => (c.subdivideAt (1/2)).1.p3
  | .split c1 _ => c1.p3

/-- Modelled from the spec: the MoviePair class is not part of the given
source.  An unordered pair of movie identities with a canonical
(sorted) representation so that equality is symmetric (spec section 3
and design note on symmetric hashing). -/
structure MoviePair where
  loId : ℕ
  hiId : ℕ
deriving DecidableEq

/-- Canonical constructor for a MoviePair. -/
def mkMoviePair (a b : ℕ) : MoviePair :=
  if a ≤ b then ⟨a, b⟩ else ⟨b, a⟩

/-- Association-list lookup (models `hash_map::find`). -/
def alookup {K V : Type} [DecidableEq K] (k : K) : List (K × V) → Option V
  | [] => none
  | (k', v) :: l => if k' = k then some v else alookup k l

/-- Append a curve to the entry of key `k`, creating the entry lazily on
first use (models the lookup-or-create-then-push_back pattern of
`DefaultLayoutProvider::addActorCurve`, lines 162-193). -/
def addToEntry {K C : Type} [DecidableEq K] (k : K) (c : C) :
    List (K × List C) → List (K × List C)
  | [] => [(k, [c])]
  | (k', v) :: l =>
      if k' = k then (k', v ++ [c]) :: l else (k', v) :: addToEntry k c l

/-- The mutable state of one DefaultLayoutProvider instance: the
director-position table and the two curve indices. -/
structure State where
  directorXPositions : List (Option ℕ × ℚ)
  byActor : List (ℕ × List ActorCurve)
  byMoviePair : List (MoviePair × List ActorCurve)
deriving DecidableEq

/-- The state right after construction: all three maps empty. -/
def initialState : State := ⟨[], [], []⟩

/-- `DefaultLayoutProvider::getDirectorXPosition` (lines 31-44):
memoized lazy slot assignment at `DISTANCE * size`. -/
def getDirectorXPosition (s : State) (director : Option ℕ) : ℚ × State :=
  match alookup director s.directorXPositions with
  | some x => (x, s)
  | none =>
      let x : ℚ := 4 * (s.directorXPositions.length : ℚ)
      (x, { s with directorXPositions := s.directorXPositions ++ [(director, x)] })

/-- `DefaultLayoutProvider::getDateYPosition` (lines 20-29). -/
def getDateYPosition (theDate : Date) : ℚ :=
  let UNITS_PER_YEAR : ℚ := 5 / ((2009 : ℚ) - 1985)
  let yearSpan : ℚ := ((2009 : ℚ) - 1985) * UNITS_PER_YEAR
  let yearsAfterEarliestYear : ℚ := dateAsYear theDate - 1985
  yearsAfterEarliestYear * UNITS_PER_YEAR - yearSpan / 2

/-- `DefaultLayoutProvider::getMoviePoint` (lines 156-160). -/
def getMoviePoint (s : State) (movie : Movie) (z : ℚ) : Vec3 × State :=
  let r := getDirectorXPosition s movie.director
  (⟨r.1, getDateYPosition movie.releaseDate, z⟩, r.2)

/-- `DefaultLayoutProvider::getActorCurves` (lines 46-54): the actor's
sequence, or the empty sequence when none exists. -/
def getActorCurves (s : State) (actor : ℕ) : List ActorCurve :=
  (alookup actor s.byActor).getD []

/-- `DefaultLayoutProvider::addActorCurve` (lines 162-193): register a
curve under both the by-actor and the by-movie-pair index. -/
def addActorCurve (s : State) (ac : ActorCurve) (moviePair : MoviePair) : State :=
  { s with
    byActor := addToEntry ac.actor ac s.byActor
    byMoviePair := addToEntry moviePair ac s.byMoviePair }

/-- Modelled from the spec: `peek::sign` (the peek numerics library is
not part of the given source); the spec describes the clamp as
sign-preserving (section 4.2). -/
def sign (q : ℚ) : ℚ := if 0 < q then 1 else if q < 0 then -1 else 0

/-- One iteration of the movie-pair walk of
`DefaultLayoutProvider::initActorCurves` (lines 87-109): build the curve
from `lastAnchor` to the current movie's anchor and register it.
Returns the built curve, the new anchor, and the new state. -/
def buildStep (s : State) (actor : ℕ) (lastMovie : Movie) (lastAnchor : Vec3)
    (movie : Movie) : ActorCurve × Vec3 × State :=
  let r := getMoviePoint s movie 0
  let anchor := r.1
  let nominalDelta0 := anchor.y - lastAnchor.y
  let nominalDelta :=
    if lastMovie.director = movie.director then nominalDelta0 / 3 else nominalDelta0
  let delta := if |nominalDelta| ≤ 5 then nominalDelta else 5 * sign nominalDelta
  let handle1 : Vec3 := ⟨lastAnchor.x, lastAnchor.y + delta, lastAnchor.z⟩
  let handle2 : Vec3 := ⟨anchor.x, anchor.y - delta, anchor.z⟩
  let moviePair := mkMoviePair lastMovie.id movie.id
  let actorCurve : ActorCurve := ⟨actor, .single ⟨lastAnchor, handle1, handle2, anchor⟩⟩
  (actorCurve, anchor, addActorCurve r.2 actorCurve moviePair)

/-- The loop of `DefaultLayoutProvider::initActorCurves`
(lines 87-109), walking the remaining movies. -/
def buildCurvesAux (actor : ℕ) : State → Movie → Vec3 → List Movie → State
  | s, _, _, [] => s
  | s, lastMovie, lastAnchor, movie :: rest =>
      let r := buildStep s actor lastMovie lastAnchor movie
      buildCurvesAux actor r.2.2 movie r.2.1 rest

/-- Modelled from the spec: stable insertion of a movie into a list
already sorted by release date ascending
(`Movie::weakPtrReleaseDateSortPredicate` is not part of the given
source; spec section 4.2 step 2). -/
def insertByDate (m : Movie) : List Movie → List Movie
  | [] => [m]
  | n :: ns =>
      if dateEarlier n.releaseDate m.releaseDate then n :: insertByDate m ns
      else m :: n :: ns

/-- Modelled from the spec: stable sort of the movie list by release
date ascending (spec section 4.2 step 2). -/
def sortByReleaseDate : List Movie → List Movie
  | [] => []
  | m :: ms => insertByDate m (sortByReleaseDate ms)

/-- `DefaultLayoutProvider::initActorCurves` (lines 68-111).  The
actor's movies-starred-in list is passed explicitly (in the source it is
fetched from the Person object, whose class is not part of the given
source). -/
def initActorCurves (s : State) (actor : ℕ) (moviesStarredIn : List Movie) : State :=
  match sortByReleaseDate moviesStarredIn with
  | [] => s
  | m0 :: rest =>
      let r := getMoviePoint s m0 0
      buildCurvesAux actor r.2 m0 r.1 rest

/-- `offsetIncrement` (line 130). -/
def offsetIncrement : ℚ := 0.05

/-- The offset amount of the curve at insertion index `actorIndex`
(line 137); the division and the parity test are on `unsigned int`. -/
def offsetAmount (actorIndex : ℕ) : ℚ :=
  if actorIndex = 0 then 0
  else (((actorIndex + 1) / 2 : ℕ) : ℚ) * offsetIncrement *
    (if actorIndex % 2 = 0 then -1 else 1)

/-- The per-curve body of the overlap-resolution loop (lines 142-149):
subdivide the first stored curve at `t = 1/2` and shift the four control
points around the junction by the offset vector, then store the two
halves via `setCurves`. -/
def applyOffset (off : Vec3) (ac : ActorCurve) : ActorCurve :=
  let bp := ac.getFirstCurve.subdivideAt (1/2)
  let b1 := bp.1
  let b2 := bp.2
  ⟨ac.actor,
   .split ⟨b1.p0, b1.p1, b1.p2 + off, b1.p3 + off⟩
          ⟨b2.p0 + off, b2.p1 + off, b2.p2, b2.p3⟩⟩

/-- The overlap-resolution loop over one group (lines 131-152), with the
running `actorIndex` counter made explicit. -/
def divergeFrom (u : Vec3) (actorIndex : ℕ) : List ActorCurve → List ActorCurve
  | [] => []
  | ac :: acs => applyOffset (offsetAmount actorIndex • u) ac ::
      divergeFrom u (actorIndex + 1) acs

/-- Overlap resolution for one movie-pair group (lines 119-152): groups
of size 0 or 1 are skipped; larger groups are rewritten curve by curve.
`u` is the normalized offset direction computed at lines 126-128
(`Vector3d::normalize` belongs to the external peek library; the
theorems constrain `u` to be the unit vector along
`perpDir (p2 - p1)` as the spec states). -/
def divergePair (u : Vec3) (curves : List ActorCurve) : List ActorCurve :=
  if curves.length ≤ 1 then curves else divergeFrom u 0 curves

/-- `DefaultLayoutProvider::divergeOverlappingCurves` (lines 113-154)
over the whole by-movie-pair index; `dir p` stands for the normalized
offset direction the source computes for pair `p` at lines 123-128. -/
def divergeOverlappingCurves (dir : MoviePair → Vec3) (s : State) : State :=
  { s with byMoviePair := s.byMoviePair.map fun e => (e.1, divergePair (dir e.1) e.2) }

/-- A sequence of director-position queries (models the successive calls
to `getDirectorXPosition` during one layout computation). -/
def runQueries (s : State) : List (Option ℕ) → State
  | [] => s
  | d :: ds => runQueries (getDirectorXPosition s d).2 ds

/-- The distinct elements of a query list in first-occurrence order,
relative to an already-seen list. -/
def goFirst (seen : List (Option ℕ)) : List (Option ℕ) → List (Option ℕ)
  | [] => []
  | d :: ds => if d ∈ seen then goFirst seen ds else d :: goFirst (seen ++ [d]) ds

/-- The director-position table holding `ds` in order, the entry at
offset `i` carrying position `4 * (n + i)`. -/
def tableFrom (n : ℕ) : List (Option ℕ) → List (Option ℕ × ℚ)
  | [] => []
  | d :: ds => (d, 4 * (n : ℚ)) :: tableFrom (n + 1) ds

/-- Total number of curve registrations in the by-movie-pair index. -/
def totalPairCurves (s : State) : ℕ :=
  (s.byMoviePair.map fun e => e.2.length).sum

/-- Sample movie used by witnesses (unresolved director). -/
def movieA : Movie := ⟨0, ⟨1990, 1⟩, none⟩

/-- Sample movie used by witnesses (unresolved director). -/
def movieB : Movie := ⟨1, ⟨2000, 1⟩, none⟩

/-- Sample movie used by witnesses (resolved director). -/
def movieC : Movie := ⟨2, ⟨1995, 100⟩, some 3⟩

/-- Sample unit offset direction used by witnesses: the normalization of
`perpDir ⟨4, 3, 0⟩ = ⟨-3, 4, 0⟩`. -/
def uSample : Vec3 := ⟨-(3/5), 4/5, 0⟩

/-- Sample curve used by witnesses. -/
def curveA : ActorCurve := ⟨0, .single ⟨⟨0,0,0⟩, ⟨0,1,0⟩, ⟨4,2,0⟩, ⟨4,3,0⟩⟩⟩

/-- Sample curve used by witnesses. -/
def curveB : ActorCurve := ⟨1, .single ⟨⟨0,0,0⟩, ⟨0,2,0⟩, ⟨4,1,0⟩, ⟨4,3,0⟩⟩⟩

/-- Sample curve used by witnesses. -/
def curveC : ActorCurve := ⟨2, .single ⟨⟨0,0,0⟩, ⟨0,3,0⟩, ⟨4,0,0⟩, ⟨4,3,0⟩⟩⟩

/-- The claim's reading of director equality in the dampening test: an
unresolved director reference compares unequal to anything, two resolved
references compare by identity.  (Second definition for the refinement
comparison; the source compares the two locked shared pointers, under
which two unresolved references compare equal.) -/
def dirEqSpec (a b : Option ℕ) : Bool :=
  match a, b with
  | some i, some j => i == j
  | _, _ => false

/-- The claim's version of `buildStep`: identical except that the
dampening condition uses `dirEqSpec`. -/
def buildStepSpec (s : State) (actor : ℕ) (lastMovie : Movie) (lastAnchor : Vec3)
    (movie : Movie) : ActorCurve × Vec3 × State :=
  let r := getMoviePoint s movie 0
  let anchor := r.1
  let nominalDelta0 := anchor.y - lastAnchor.y
  let nominalDelta :=
    if dirEqSpec lastMovie.director movie.director then nominalDelta0 / 3
    else nominalDelta0
  let delta := if |nominalDelta| ≤ 5 then nominalDelta else 5 * sign nominalDelta
  let handle1 : Vec3 := ⟨lastAnchor.x, lastAnchor.y + delta, lastAnchor.z⟩
  let handle2 : Vec3 := ⟨anchor.x, anchor.y - delta, anchor.z⟩
  let moviePair := mkMoviePair lastMovie.id movie.id
  let actorCurve : ActorCurve := ⟨actor, .single ⟨lastAnchor, handle1, handle2, anchor⟩⟩
  (actorCurve, anchor, addActorCurve r.2 actorCurve moviePair)

/- ------------------------------------------------------------------ -/
/- Helper lemmas                                                       -/
/- ------------------------------------------------------------------ -/

theorem Vec3.add_def (a b : Vec3) : a + b = ⟨a.x + b.x, a.y + b.y, a.z + b.z⟩ := rfl

theorem Vec3.sub_def (a b : Vec3) : a - b = ⟨a.x - b.x, a.y - b.y, a.z - b.z⟩ := rfl

theorem Vec3.smul_def (c : ℚ) (a : Vec3) : c • a = ⟨c * a.x, c * a.y, c * a.z⟩ := rfl

theorem divergeFrom_getElem (u : Vec3) :
    ∀ (cs : List ActorCurve) (n i : ℕ),
      (divergeFrom u n cs)[i]? =
        Option.map (fun a => applyOffset (offsetAmount (n + i) • u) a) cs[i]?
  | [], n, i => by simp [divergeFrom]
  | c :: cs, n, 0 => by simp [divergeFrom]
  | c :: cs, n, i + 1 => by
      have ih := divergeFrom_getElem u cs (n + 1) i
      simp only [divergeFrom, List.getElem?_cons_succ, ih]
      have hn : n + 1 + i = n + (i + 1) := by omega
      rw [hn]

/- ------------------------------------------------------------------ -/
/- C1                                                                  -/
/- ------------------------------------------------------------------ -/

/-- C1: in every movie-pair group with at least two curves, the curve at
insertion index 0 receives an offset of magnitude 0 and the curve at
index i receives the offset ((i+1) div 2) * 0.05 signed -1 for even i
and +1 for odd i, applied along the unit-normalized perpendicular
direction (-v.y, v.x, v.z) of v = p2 - p1. -/
theorem diverge_offset_formula (p1 p2 u : Vec3) (c : ℚ) (curves : List ActorCurve)
    (i : ℕ) (a : ActorCurve) (hc : 0 < c) (hu : u = c • perpDir (p2 - p1))
    (hnorm : normSq u = 1) (hlen : 2 ≤ curves.length) (hi : curves[i]? = some a) :
    (divergePair u curves)[i]? = some (applyOffset
      ((if i = 0 then 0 else (((i + 1) / 2 : ℕ) : ℚ) * 0.05 *
        (if i % 2 = 0 then -1 else 1)) • u) a) := by
  have h2 : ¬ curves.length ≤ 1 := by omega
  rw [divergePair, if_neg h2, divergeFrom_getElem u curves 0 i, hi]
  simp [offsetAmount, offsetIncrement]

/-- Witness for C1: a group of two curves with the unit perpendicular of
v = (4, 3, 0); the curve at index 1 is offset by +0.05 along it. -/
theorem diverge_offset_formula_witness :
    (0 : ℚ) < 1/5 ∧
    uSample = (1/5 : ℚ) • perpDir ((⟨4, 3, 0⟩ : Vec3) - ⟨0, 0, 0⟩) ∧
    normSq uSample = 1 ∧
    (divergePair uSample [curveA, curveB])[1]? = some (applyOffset
      ((if 1 = 0 then 0 else (((1 + 1) / 2 : ℕ) : ℚ) * 0.05 *
        (if 1 % 2 = 0 then -1 else 1)) • uSample) curveB) :=
  ⟨by norm_num,
   by norm_num [uSample, perpDir, Vec3.smul_def, Vec3.sub_def],
   by norm_num [normSq, uSample],
   diverge_offset_formula ⟨0, 0, 0⟩ ⟨4, 3, 0⟩ uSample (1/5) [curveA, curveB] 1 curveB
     (by norm_num)
     (by norm_num [uSample, perpDir, Vec3.smul_def, Vec3.sub_def])
     (by norm_num [normSq, uSample])
     (by norm_num)
     rfl⟩

/- ------------------------------------------------------------------ -/
/- C2                                                                  -/
/- ------------------------------------------------------------------ -/

/-- C2: after overlap resolution, every curve of a group of size at
least two is replaced by the two halves of its curve subdivided at
t = 1/2, with only the first half's second handle and junction point and
the second half's junction point and first handle shifted by the offset
vector; the whole curve's start and end anchors are unchanged, and a
group of size 0 or 1 is left entirely untouched. -/
theorem diverge_split_geometry (u : Vec3) (curves : List ActorCurve) (i : ℕ)
    (a : ActorCurve) (small : List ActorCurve) (hlen : 2 ≤ curves.length)
    (hi : curves[i]? = some a) (hsmall : small.length ≤ 1) :
    (divergePair u curves)[i]? = some ⟨a.actor, .split
      ⟨(a.getFirstCurve.subdivideAt (1/2)).1.p0, (a.getFirstCurve.subdivideAt (1/2)).1.p1,
       (a.getFirstCurve.subdivideAt (1/2)).1.p2 + offsetAmount i • u,
       (a.getFirstCurve.subdivideAt (1/2)).1.p3 + offsetAmount i • u⟩
      ⟨(a.getFirstCurve.subdivideAt (1/2)).2.p0 + offsetAmount i • u,
       (a.getFirstCurve.subdivideAt (1/2)).2.p1 + offsetAmount i • u,
       (a.getFirstCurve.subdivideAt (1/2)).2.p2, (a.getFirstCurve.subdivideAt (1/2)).2.p3⟩⟩ ∧
    (a.getFirstCurve.subdivideAt (1/2)).1.p0 = a.getFirstCurve.p0 ∧
    (a.getFirstCurve.subdivideAt (1/2)).2.p3 = a.getFirstCurve.p3 ∧
    divergePair u small = small := by
  have h2 : ¬ curves.length ≤ 1 := by omega
  refine ⟨?_, rfl, rfl, by rw [divergePair, if_pos hsmall]⟩
  rw [divergePair, if_neg h2, divergeFrom_getElem u curves 0 i, hi]
  simp [applyOffset]

/-- Witness for C2: the group [curveA, curveB] at index 0, and the
singleton group [curveC] left untouched. -/
theorem diverge_split_geometry_witness :
    (divergePair uSample [curveA, curveB])[0]? = some ⟨curveA.actor, .split
      ⟨(curveA.getFirstCurve.subdivideAt (1/2)).1.p0,
       (curveA.getFirstCurve.subdivideAt (1/2)).1.p1,
       (curveA.getFirstCurve.subdivideAt (1/2)).1.p2 + offsetAmount 0 • uSample,
       (curveA.getFirstCurve.subdivideAt (1/2)).1.p3 + offsetAmount 0 • uSample⟩
      ⟨(curveA.getFirstCurve.subdivideAt (1/2)).2.p0 + offsetAmount 0 • uSample,
       (curveA.getFirstCurve.subdivideAt (1/2)).2.p1 + offsetAmount 0 • uSample,
       (curveA.getFirstCurve.subdivideAt (1/2)).2.p2,
       (curveA.getFirstCurve.subdivideAt (1/2)).2.p3⟩⟩ ∧
    (curveA.getFirstCurve.subdivideAt (1/2)).1.p0 = curveA.getFirstCurve.p0 ∧
    (curveA.getFirstCurve.subdivideAt (1/2)).2.p3 = curveA.getFirstCurve.p3 ∧
    divergePair uSample [curveC] = [curveC] :=
  diverge_split_geometry uSample [curveA, curveB] 0 curveA [curveC]
    (by norm_num) rfl (by norm_num)

/- ------------------------------------------------------------------ -/
/- C9                                                                  -/
/- ------------------------------------------------------------------ -/

/-- C9 counterexample: on a concrete group of exactly three single
curves, the curve at insertion index 1 is offset by +0.05 along the
direction (not -0.05 as the claim assigns) and the curve at index 2 by
-0.05 (not +0.05). -/
theorem group3_signs_counterexample :
    (divergePair uSample [curveA, curveB, curveC])[1]? =
      some (applyOffset ((0.05 : ℚ) • uSample) curveB) ∧
    (divergePair uSample [curveA, curveB, curveC])[1]? ≠
      some (applyOffset (-(0.05 : ℚ) • uSample) curveB) ∧
    (divergePair uSample [curveA, curveB, curveC])[2]? =
      some (applyOffset (-(0.05 : ℚ) • uSample) curveC) ∧
    (divergePair uSample [curveA, curveB, curveC])[2]? ≠
      some (applyOffset ((0.05 : ℚ) • uSample) curveC) := by
  norm_num [divergePair, divergeFrom, applyOffset, offsetAmount, offsetIncrement, uSample,
    curveA, curveB, curveC, ActorCurve.getFirstCurve, BezierCurve.subdivideAt, lerp,
    Vec3.add_def, Vec3.sub_def, Vec3.smul_def]

/-- C9 amended: overlap resolution on a movie-pair group of exactly
three (unsplit) curves produces offset magnitudes 0, 0.05, 0.05 with
signs zero, +, - for insertion indices 0, 1, 2 respectively, leaving
each curve's first and last anchor point unchanged while the midpoint
junction is shifted by the offset vector. -/
theorem group3_offsets (u : Vec3) (c0 c1 c2 : ActorCurve) (b0 b1 b2 : BezierCurve)
    (h0 : c0.geom = .single b0) (h1 : c1.geom = .single b1) (h2 : c2.geom = .single b2) :
    divergePair u [c0, c1, c2] =
      [applyOffset ((0 : ℚ) • u) c0, applyOffset ((0.05 : ℚ) • u) c1,
       applyOffset (-(0.05 : ℚ) • u) c2] ∧
    firstAnchorPt (applyOffset ((0 : ℚ) • u) c0) = firstAnchorPt c0 ∧
    firstAnchorPt (applyOffset ((0.05 : ℚ) • u) c1) = firstAnchorPt c1 ∧
    firstAnchorPt (applyOffset (-(0.05 : ℚ) • u) c2) = firstAnchorPt c2 ∧
    lastAnchorPt (applyOffset ((0 : ℚ) • u) c0) = lastAnchorPt c0 ∧
    lastAnchorPt (applyOffset ((0.05 : ℚ) • u) c1) = lastAnchorPt c1 ∧
    lastAnchorPt (applyOffset (-(0.05 : ℚ) • u) c2) = lastAnchorPt c2 ∧
    midJunction (applyOffset ((0 : ℚ) • u) c0) = midJunction c0 ∧
    midJunction (applyOffset ((0.05 : ℚ) • u) c1) = midJunction c1 + (0.05 : ℚ) • u ∧
    midJunction (applyOffset (-(0.05 : ℚ) • u) c2) = midJunction c2 + -(0.05 : ℚ) • u := by
  have e1 : offsetAmount 1 = (0.05 : ℚ) := by norm_num [offsetAmount, offsetIncrement]
  have e2 : offsetAmount 2 = -(0.05 : ℚ) := by norm_num [offsetAmount, offsetIncrement]
  have e0 : offsetAmount 0 = 0 := rfl
  refine ⟨by simp [divergePair, divergeFrom, e0, e1, e2], ?_, ?_, ?_, ?_, ?_, ?_, ?_, ?_, ?_⟩
  · simp [firstAnchorPt, applyOffset, ActorCurve.getFirstCurve, h0, BezierCurve.subdivideAt]
  · simp [firstAnchorPt, applyOffset, ActorCurve.getFirstCurve, h1, BezierCurve.subdivideAt]
  · simp [firstAnchorPt, applyOffset, ActorCurve.getFirstCurve, h2, BezierCurve.subdivideAt]
  · simp [lastAnchorPt, applyOffset, ActorCurve.getFirstCurve, h0, BezierCurve.subdivideAt]
  · simp [lastAnchorPt, applyOffset, ActorCurve.getFirstCurve, h1, BezierCurve.subdivideAt]
  · simp [lastAnchorPt, applyOffset, ActorCurve.getFirstCurve, h2, BezierCurve.subdivideAt]
  · simp [midJunction, applyOffset, ActorCurve.getFirstCurve, h0, Vec3.smul_def,
      Vec3.add_def]
  · simp [midJunction, applyOffset, ActorCurve.getFirstCurve, h1]
  · simp [midJunction, applyOffset, ActorCurve.getFirstCurve, h2]

/-- Witness for the amended C9 on concrete curves. -/
theorem group3_offsets_witness :
    divergePair uSample [curveA, curveB, curveC] =
      [applyOffset ((0 : ℚ) • uSample) curveA, applyOffset ((0.05 : ℚ) • uSample) curveB,
       applyOffset (-(0.05 : ℚ) • uSample) curveC] ∧
    firstAnchorPt (applyOffset ((0 : ℚ) • uSample) curveA) = firstAnchorPt curveA ∧
    firstAnchorPt (applyOffset ((0.05 : ℚ) • uSample) curveB) = firstAnchorPt curveB ∧
    firstAnchorPt (applyOffset (-(0.05 : ℚ) • uSample) curveC) = firstAnchorPt curveC ∧
    lastAnchorPt (applyOffset ((0 : ℚ) • uSample) curveA) = lastAnchorPt curveA ∧
    lastAnchorPt (applyOffset ((0.05 : ℚ) • uSample) curveB) = lastAnchorPt curveB ∧
    lastAnchorPt (applyOffset (-(0.05 : ℚ) • uSample) curveC) = lastAnchorPt curveC ∧
    midJunction (applyOffset ((0 : ℚ) • uSample) curveA) = midJunction curveA ∧
    midJunction (applyOffset ((0.05 : ℚ) • uSample) curveB) =
      midJunction curveB + (0.05 : ℚ) • uSample ∧
    midJunction (applyOffset (-(0.05 : ℚ) • uSample) curveC) =
      midJunction curveC + -(0.05 : ℚ) • uSample :=
  group3_offsets uSample curveA curveB curveC _ _ _ rfl rfl rfl

/- ------------------------------------------------------------------ -/
/- C6                                                                  -/
/- ------------------------------------------------------------------ -/

/-- C6 counterexample: December 31 of the leap year 2000 (day-of-year
366) is strictly earlier than January 1 of 2001, both dates are valid
and inside the calibration window, yet they map to the same axis
position, so the mapping is not strictly monotone. -/
theorem dateAxis_strict_mono_counterexample :
    dateEarlier ⟨2000, 366⟩ ⟨2001, 1⟩ ∧
    1 ≤ (⟨2000, 366⟩ : Date).dayOfYear ∧ (⟨2000, 366⟩ : Date).dayOfYear ≤ 366 ∧
    1 ≤ (⟨2001, 1⟩ : Date).dayOfYear ∧ (⟨2001, 1⟩ : Date).dayOfYear ≤ 366 ∧
    1985 ≤ (⟨2000, 366⟩ : Date).year ∧ (⟨2001, 1⟩ : Date).year ≤ 2009 ∧
    getDateYPosition ⟨2000, 366⟩ = getDateYPosition ⟨2001, 1⟩ ∧
    ¬ getDateYPosition ⟨2000, 366⟩ < getDateYPosition ⟨2001, 1⟩ := by
  refine ⟨by decide, by decide, by decide, by decide, by decide, by decide, by decide,
    ?_, ?_⟩
  · norm_num [getDateYPosition, dateAsYear]
  · norm_num [getDateYPosition, dateAsYear]

/-- C6 amended: for valid dates (day-of-year between 1 and 366) inside
the calibration window, a strictly earlier date maps to a position less
than or equal to that of a later date; equality can occur (only at the
day-366 year boundary), so the mapping is monotone but not strictly. -/
theorem dateAxis_monotone (d1 d2 : Date)
    (h11 : 1 ≤ d1.dayOfYear) (h12 : d1.dayOfYear ≤ 366)
    (h21 : 1 ≤ d2.dayOfYear) (h22 : d2.dayOfYear ≤ 366)
    (hw1 : 1985 ≤ d1.year) (hw2 : d2.year ≤ 2009)
    (hlt : dateEarlier d1 d2) :
    getDateYPosition d1 ≤ getDateYPosition d2 := by
  have key : 365 * d1.year + d1.dayOfYear ≤ 365 * d2.year + d2.dayOfYear := by
    rcases hlt with h | ⟨he, hd⟩
    · omega
    · omega
  have keyQ : (365 : ℚ) * d1.year + d1.dayOfYear ≤ 365 * d2.year + d2.dayOfYear := by
    exact_mod_cast key
  have hfrac : dateAsYear d1 ≤ dateAsYear d2 := by
    unfold dateAsYear
    linarith
  simp only [getDateYPosition]
  norm_num
  linarith

/-- Witness for the amended C6 on two concrete dates. -/
theorem dateAxis_monotone_witness :
    dateEarlier ⟨1990, 1⟩ ⟨1990, 2⟩ ∧
    getDateYPosition ⟨1990, 1⟩ ≤ getDateYPosition ⟨1990, 2⟩ :=
  ⟨by decide,
   dateAxis_monotone ⟨1990, 1⟩ ⟨1990, 2⟩ (by decide) (by decide) (by decide) (by decide)
     (by decide) (by decide) (by decide)⟩

/- ------------------------------------------------------------------ -/
/- C7                                                                  -/
/- ------------------------------------------------------------------ -/

/-- C7: any date value whose fractional year is the exact midpoint of
the calibration window [1985, 2009] maps to axis position 0. -/
theorem dateAxis_midpoint_zero (d : Date)
    (h : dateAsYear d = ((1985 : ℚ) + 2009) / 2) :
    getDateYPosition d = 0 := by
  simp only [getDateYPosition, h]
  norm_num

/-- Witness for C7: the date value with year 1997 and day offset 0 has
fractional year exactly 1997, the midpoint of the window. -/
theorem dateAxis_midpoint_zero_witness :
    dateAsYear ⟨1997, 0⟩ = ((1985 : ℚ) + 2009) / 2 ∧
    getDateYPosition ⟨1997, 0⟩ = 0 :=
  ⟨by norm_num [dateAsYear],
   dateAxis_midpoint_zero ⟨1997, 0⟩ (by norm_num [dateAsYear])⟩

/- ------------------------------------------------------------------ -/
/- C4                                                                  -/
/- ------------------------------------------------------------------ -/

theorem clamp_eq_max_min (q : ℚ) :
    (if |q| ≤ 5 then q else 5 * sign q) = max (-5) (min 5 q) := by
  rcases le_or_lt (|q|) 5 with h | h
  · rw [if_pos h]
    rcases abs_le.mp h with ⟨ha, hb⟩
    rw [min_eq_right hb, max_eq_right ha]
  · rw [if_neg (not_le.mpr h)]
    rcases lt_or_le q 0 with hq | hq
    · have habs : |q| = -q := abs_of_neg hq
      rw [habs] at h
      have hs : sign q = -1 := by
        unfold sign
        rw [if_neg (by linarith), if_pos hq]
      rw [hs, min_eq_right (by linarith), max_eq_left (by linarith)]
      norm_num
    · have habs : |q| = q := abs_of_nonneg hq
      rw [habs] at h
      have hs : sign q = 1 := by
        unfold sign
        rw [if_pos (by linarith)]
      rw [hs, min_eq_left (by linarith), max_eq_right (by norm_num : (-5 : ℚ) ≤ 5)]
      norm_num

/-- C4 counterexample: for two consecutive movies both of whose director
references are unresolved, the code dampens the delta (the two null
locked pointers compare equal), while the claim's reading — an
unresolved reference compares unequal to anything — predicts an
undampened delta; the built curves differ at this concrete input. -/
theorem handle_delta_counterexample :
    (buildStep (getMoviePoint initialState movieA 0).2 0 movieA
        (getMoviePoint initialState movieA 0).1 movieB).1 ≠
    (buildStepSpec (getMoviePoint initialState movieA 0).2 0 movieA
        (getMoviePoint initialState movieA 0).1 movieB).1 := by
  norm_num [buildStep, buildStepSpec, getMoviePoint, getDirectorXPosition, initialState,
    alookup, getDateYPosition, dateAsYear, dirEqSpec, sign, addActorCurve, mkMoviePair,
    movieA, movieB, abs_of_nonneg]

/-- C4 amended: for every consecutive movie pair walked by the curve
builder, the nominal delta anchorCurr.y - anchorPrev.y is divided by 3
exactly when the two director references are equal under shared-pointer
equality (two unresolved references compare equal to each other, an
unresolved one unequal to every resolved one); the result is clamped to
magnitude 5 preserving sign, and the handles are anchorPrev + (0, delta, 0)
and anchorCurr - (0, delta, 0). -/
theorem handle_delta (s : State) (actor : ℕ) (lastMovie movie : Movie)
    (lastAnchor : Vec3) :
    (buildStep s actor lastMovie lastAnchor movie).1 =
      ⟨actor, .single
        ⟨lastAnchor,
         ⟨lastAnchor.x,
          lastAnchor.y + max (-5) (min 5 (if lastMovie.director = movie.director
            then ((getMoviePoint s movie 0).1.y - lastAnchor.y) / 3
            else (getMoviePoint s movie 0).1.y - lastAnchor.y)),
          lastAnchor.z⟩,
         ⟨(getMoviePoint s movie 0).1.x,
          (getMoviePoint s movie 0).1.y - max (-5) (min 5 (if lastMovie.director = movie.director
            then ((getMoviePoint s movie 0).1.y - lastAnchor.y) / 3
            else (getMoviePoint s movie 0).1.y - lastAnchor.y)),
          (getMoviePoint s movie 0).1.z⟩,
         (getMoviePoint s movie 0).1⟩⟩ := by
  simp only [buildStep, clamp_eq_max_min]

/- ------------------------------------------------------------------ -/
/- C8                                                                  -/
/- ------------------------------------------------------------------ -/

theorem alookup_append_of_none {K V : Type} [DecidableEq K] (k : K) :
    ∀ (l1 l2 : List (K × V)), alookup k l1 = none → alookup k (l1 ++ l2) = alookup k l2
  | [], l2, _ => rfl
  | (k', v) :: l1, l2, h => by
      by_cases hk : k' = k
      · simp [alookup, hk] at h
      · simp only [alookup, if_neg hk] at h ⊢
        exact alookup_append_of_none k l1 l2 h

theorem getDirectorXPosition_lookup_self (s : State) (d : Option ℕ) :
    alookup d ((getDirectorXPosition s d).2).directorXPositions =
      some ((getDirectorXPosition s d).1) := by
  cases h : alookup d s.directorXPositions with
  | some x => simp [getDirectorXPosition, h]
  | none =>
      simp only [getDirectorXPosition, h]
      rw [alookup_append_of_none d _ _ h]
      simp [alookup]

/-- C8: for a movie whose director reference is unresolved, the layout
computation is a total function (no crash): the unresolved director acts
as the sentinel identity none, which never equals any resolved director
and receives its own recorded axis position. -/
theorem unresolved_director_sentinel (s : State) (m : Movie) (p : ℕ)
    (hm : m.director = none) :
    ((getMoviePoint s m 0).1).x = (getDirectorXPosition s none).1 ∧
    (none : Option ℕ) ≠ some p ∧
    alookup (none : Option ℕ) ((getMoviePoint s m 0).2).directorXPositions =
      some ((getDirectorXPosition s none).1) := by
  refine ⟨by simp [getMoviePoint, hm], by simp, ?_⟩
  have h := getDirectorXPosition_lookup_self s none
  simpa [getMoviePoint, hm] using h

/-- Witness for C8 on a concrete movie with unresolved director. -/
theorem unresolved_director_sentinel_witness :
    movieA.director = none ∧
    (((getMoviePoint initialState movieA 0).1).x =
        (getDirectorXPosition initialState none).1 ∧
      (none : Option ℕ) ≠ some 3 ∧
      alookup (none : Option ℕ)
          ((getMoviePoint initialState movieA 0).2).directorXPositions =
        some ((getDirectorXPosition initialState none).1)) :=
  ⟨rfl, unresolved_director_sentinel initialState movieA 3 rfl⟩

/- ------------------------------------------------------------------ -/
/- C3                                                                  -/
/- ------------------------------------------------------------------ -/

theorem alookup_addToEntry_self {K C : Type} [DecidableEq K] (k : K) (c : C) :
    ∀ l : List (K × List C),
      alookup k (addToEntry k c l) = some ((alookup k l).getD [] ++ [c])
  | [] => by simp [addToEntry, alookup]
  | (k', v) :: l => by
      by_cases h : k' = k
      · subst h
        simp [addToEntry, alookup]
      · simp [addToEntry, alookup, h, alookup_addToEntry_self k c l]

theorem sum_map_addToEntry {K C : Type} [DecidableEq K] (k : K) (c : C) :
    ∀ l : List (K × List C),
      ((addToEntry k c l).map fun e => e.2.length).sum =
        ((l.map fun e => e.2.length)).sum + 1
  | [] => by simp [addToEntry]
  | (k', v) :: l => by
      by_cases h : k' = k
      · subst h
        simp [addToEntry]
        omega
      · simp [addToEntry, h, sum_map_addToEntry k c l]
        omega

theorem getDirectorXPosition_byActor (s : State) (d : Option ℕ) :
    ((getDirectorXPosition s d).2).byActor = s.byActor := by
  cases h : alookup d s.directorXPositions with
  | some x => simp [getDirectorXPosition, h]
  | none => simp [getDirectorXPosition, h]

theorem getDirectorXPosition_byMoviePair (s : State) (d : Option ℕ) :
    ((getDirectorXPosition s d).2).byMoviePair = s.byMoviePair := by
  cases h : alookup d s.directorXPositions with
  | some x => simp [getDirectorXPosition, h]
  | none => simp [getDirectorXPosition, h]

theorem getMoviePoint_byActor (s : State) (m : Movie) (z : ℚ) :
    ((getMoviePoint s m z).2).byActor = s.byActor :=
  getDirectorXPosition_byActor s m.director

theorem getMoviePoint_byMoviePair (s : State) (m : Movie) (z : ℚ) :
    ((getMoviePoint s m z).2).byMoviePair = s.byMoviePair :=
  getDirectorXPosition_byMoviePair s m.director

theorem getActorCurves_addActorCurve_self (s : State) (ac : ActorCurve) (p : MoviePair) :
    getActorCurves (addActorCurve s ac p) ac.actor = getActorCurves s ac.actor ++ [ac] := by
  simp [getActorCurves, addActorCurve, alookup_addToEntry_self]

theorem totalPairCurves_addActorCurve (s : State) (ac : ActorCurve) (p : MoviePair) :
    totalPairCurves (addActorCurve s ac p) = totalPairCurves s + 1 := by
  simp [totalPairCurves, addActorCurve, sum_map_addToEntry]

theorem buildStep_state (s : State) (actor : ℕ) (lm : Movie) (la : Vec3) (m : Movie) :
    (buildStep s actor lm la m).2.2 =
      addActorCurve (getMoviePoint s m 0).2 (buildStep s actor lm la m).1
        (mkMoviePair lm.id m.id) := rfl

theorem buildStep_actor (s : State) (actor : ℕ) (lm : Movie) (la : Vec3) (m : Movie) :
    ((buildStep s actor lm la m).1).actor = actor := rfl

theorem buildCurvesAux_actor_length (actor : ℕ) :
    ∀ (rest : List Movie) (s : State) (lastMovie : Movie) (lastAnchor : Vec3),
      (getActorCurves (buildCurvesAux actor s lastMovie lastAnchor rest) actor).length =
        (getActorCurves s actor).length + rest.length
  | [], s, lm, la => by simp [buildCurvesAux]
  | m :: rest, s, lm, la => by
      rw [buildCurvesAux]
      rw [buildCurvesAux_actor_length actor rest _ _ _]
      have hstep := getActorCurves_addActorCurve_self (getMoviePoint s m 0).2
        (buildStep s actor lm la m).1 (mkMoviePair lm.id m.id)
      rw [buildStep_actor] at hstep
      rw [buildStep_state, hstep]
      have hba : getActorCurves ((getMoviePoint s m 0).2) actor =
          getActorCurves s actor := by
        simp [getActorCurves, getMoviePoint_byActor]
      rw [hba]
      simp
      omega

theorem buildCurvesAux_totalPair (actor : ℕ) :
    ∀ (rest : List Movie) (s : State) (lastMovie : Movie) (lastAnchor : Vec3),
      totalPairCurves (buildCurvesAux actor s lastMovie lastAnchor rest) =
        totalPairCurves s + rest.length
  | [], s, lm, la => by simp [buildCurvesAux]
  | m :: rest, s, lm, la => by
      rw [buildCurvesAux]
      rw [buildCurvesAux_totalPair actor rest _ _ _]
      rw [buildStep_state, totalPairCurves_addActorCurve]
      have hbp : totalPairCurves ((getMoviePoint s m 0).2) = totalPairCurves s := by
        simp [totalPairCurves, getMoviePoint_byMoviePair]
      rw [hbp]
      simp
      omega

theorem insertByDate_length (m : Movie) :
    ∀ l : List Movie, (insertByDate m l).length = l.length + 1
  | [] => rfl
  | n :: ns => by
      by_cases h : dateEarlier n.releaseDate m.releaseDate
      · simp [insertByDate, h, insertByDate_length m ns]
      · simp [insertByDate, h]

theorem sortByReleaseDate_length :
    ∀ l : List Movie, (sortByReleaseDate l).length = l.length
  | [] => rfl
  | m :: ms => by simp [sortByReleaseDate, insertByDate_length, sortByReleaseDate_length ms]

/-- C3: an actor with an empty or singleton movie list yields an empty
curve sequence; an actor with N at least 2 movies yields exactly N - 1
curve segments, each registered under both the by-actor and the
by-movie-pair index. -/
theorem curveBuilder_count (s : State) (actor : ℕ) (movies : List Movie)
    (hfresh : alookup actor s.byActor = none) :
    (movies.length ≤ 1 → getActorCurves (initActorCurves s actor movies) actor = []) ∧
    (2 ≤ movies.length →
      (getActorCurves (initActorCurves s actor movies) actor).length =
        movies.length - 1 ∧
      totalPairCurves (initActorCurves s actor movies) =
        totalPairCurves s + (movies.length - 1)) := by
  have hfreshE : getActorCurves s actor = [] := by simp [getActorCurves, hfresh]
  cases hs : sortByReleaseDate movies with
  | nil =>
      have hlen0 : movies.length = 0 := by
        have h := sortByReleaseDate_length movies
        rw [hs] at h
        simpa using h.symm
      constructor
      · intro _
        simp [initActorCurves, hs, hfreshE]
      · intro h2
        omega
  | cons m0 rest =>
      have hlen : rest.length + 1 = movies.length := by
        have h := sortByReleaseDate_length movies
        rw [hs] at h
        simpa using h
      have hinit : initActorCurves s actor movies =
          buildCurvesAux actor (getMoviePoint s m0 0).2 m0 (getMoviePoint s m0 0).1 rest := by
        simp [initActorCurves, hs]
      have hs1A : getActorCurves ((getMoviePoint s m0 0).2) actor = [] := by
        simp [getActorCurves, getMoviePoint_byActor, hfresh]
      constructor
      · intro h1
        have hr0 : rest = [] := by
          have : rest.length = 0 := by omega
          exact List.length_eq_zero.mp this
        subst hr0
        rw [hinit]
        simpa [buildCurvesAux] using hs1A
      · intro h2
        rw [hinit]
        refine ⟨?_, ?_⟩
        · rw [buildCurvesAux_actor_length, hs1A]
          simp
          omega
        · rw [buildCurvesAux_totalPair]
          have hbp : totalPairCurves ((getMoviePoint s m0 0).2) = totalPairCurves s := by
            simp [totalPairCurves, getMoviePoint_byMoviePair]
          rw [hbp]
          omega

/-- Witness for C3: three concrete movies yield exactly two curve
segments for a fresh actor, both registered in the by-movie-pair index. -/
theorem curveBuilder_count_witness :
    alookup 7 initialState.byActor = none ∧
    ((getActorCurves (initActorCurves initialState 7 [movieB, movieA, movieC]) 7).length =
        [movieB, movieA, movieC].length - 1 ∧
      totalPairCurves (initActorCurves initialState 7 [movieB, movieA, movieC]) =
        totalPairCurves initialState + ([movieB, movieA, movieC].length - 1)) :=
  ⟨rfl, (curveBuilder_count initialState 7 [movieB, movieA, movieC] rfl).2 (by decide)⟩

/- ------------------------------------------------------------------ -/
/- C10                                                                 -/
/- ------------------------------------------------------------------ -/

/-- C10: processing an actor with exactly one movie registers no curve
in either index, yet it computes the movie's point, so the movie's
(previously unassigned) director is appended to the director-position
table, shifting the slot a director first queried later receives from
4 * n to 4 * n + 4. -/
theorem singleton_actor_frame_effect (s : State) (actor : ℕ) (m : Movie)
    (d2 : Option ℕ)
    (hm : alookup m.director s.directorXPositions = none)
    (hd2 : alookup d2 s.directorXPositions = none)
    (hne : d2 ≠ m.director) :
    (initActorCurves s actor [m]).byActor = s.byActor ∧
    (initActorCurves s actor [m]).byMoviePair = s.byMoviePair ∧
    (initActorCurves s actor [m]).directorXPositions =
      s.directorXPositions ++ [(m.director, 4 * (s.directorXPositions.length : ℚ))] ∧
    (getDirectorXPosition s d2).1 = 4 * (s.directorXPositions.length : ℚ) ∧
    (getDirectorXPosition (initActorCurves s actor [m]) d2).1 =
      4 * (s.directorXPositions.length : ℚ) + 4 := by
  have hinit : initActorCurves s actor [m] = (getMoviePoint s m 0).2 := by
    simp [initActorCurves, sortByReleaseDate, insertByDate, buildCurvesAux]
  have hstate : (getMoviePoint s m 0).2 =
      { s with directorXPositions :=
          s.directorXPositions ++ [(m.director, 4 * (s.directorXPositions.length : ℚ))] } := by
    simp [getMoviePoint, getDirectorXPosition, hm]
  rw [hinit, hstate]
  refine ⟨rfl, rfl, rfl, ?_, ?_⟩
  · simp [getDirectorXPosition, hd2]
  · have hlk : alookup d2 (s.directorXPositions ++
        [(m.director, 4 * (s.directorXPositions.length : ℚ))]) = none := by
      rw [alookup_append_of_none d2 _ _ hd2]
      simp [alookup, Ne.symm hne]
    simp only [getDirectorXPosition, hlk]
    simp [List.length_append]
    ring

/-- Witness for C10 on a concrete one-movie actor. -/
theorem singleton_actor_frame_effect_witness :
    (initActorCurves initialState 0 [movieC]).byActor = initialState.byActor ∧
    (initActorCurves initialState 0 [movieC]).byMoviePair = initialState.byMoviePair ∧
    (initActorCurves initialState 0 [movieC]).directorXPositions =
      initialState.directorXPositions ++
        [(movieC.director, 4 * (initialState.directorXPositions.length : ℚ))] ∧
    (getDirectorXPosition initialState (some 9)).1 =
      4 * (initialState.directorXPositions.length : ℚ) ∧
    (getDirectorXPosition (initActorCurves initialState 0 [movieC]) (some 9)).1 =
      4 * (initialState.directorXPositions.length : ℚ) + 4 :=
  singleton_actor_frame_effect initialState 0 movieC (some 9) rfl rfl (by decide)

/- ------------------------------------------------------------------ -/
/- C5                                                                  -/
/- ------------------------------------------------------------------ -/

theorem tableFrom_length : ∀ (ds : List (Option ℕ)) (n : ℕ),
    (tableFrom n ds).length = ds.length
  | [], _ => rfl
  | _ :: ds, n => by simp [tableFrom, tableFrom_length ds (n + 1)]

theorem alookup_tableFrom_none : ∀ (ds : List (Option ℕ)) (n : ℕ) (d : Option ℕ),
    d ∉ ds → alookup d (tableFrom n ds) = none
  | [], _, _, _ => rfl
  | e :: ds, n, d, h => by
      have hne : e ≠ d := fun he => h (he ▸ List.mem_cons_self e ds)
      have hnm : d ∉ ds := fun hm => h (List.mem_cons_of_mem e hm)
      simp only [tableFrom, alookup, if_neg hne]
      exact alookup_tableFrom_none ds (n + 1) d hnm

theorem alookup_tableFrom_mem : ∀ (ds : List (Option ℕ)) (n : ℕ) (d : Option ℕ),
    d ∈ ds → (alookup d (tableFrom n ds)).isSome
  | [], _, _, h => absurd h (List.not_mem_nil _)
  | e :: ds, n, d, h => by
      by_cases he : e = d
      · simp [tableFrom, alookup, he]
      · have hm : d ∈ ds := by
          rcases List.mem_cons.mp h with h1 | h1
          · exact absurd h1.symm he
          · exact h1
        simp only [tableFrom, alookup, if_neg he]
        exact alookup_tableFrom_mem ds (n + 1) d hm

theorem tableFrom_append : ∀ (ds : List (Option ℕ)) (n : ℕ) (d : Option ℕ),
    tableFrom n (ds ++ [d]) = tableFrom n ds ++ [(d, 4 * ((n + ds.length : ℕ) : ℚ))]
  | [], n, d => by simp [tableFrom]
  | e :: ds, n, d => by
      have h := tableFrom_append ds (n + 1) d
      have hn : n + 1 + ds.length = n + (ds.length + 1) := by omega
      rw [hn] at h
      calc tableFrom n ((e :: ds) ++ [d])
          = (e, 4 * (n : ℚ)) :: tableFrom (n + 1) (ds ++ [d]) := rfl
        _ = (e, 4 * (n : ℚ)) ::
              (tableFrom (n + 1) ds ++ [(d, 4 * ((n + (ds.length + 1) : ℕ) : ℚ))]) := by
            rw [h]
        _ = tableFrom n (e :: ds) ++ [(d, 4 * ((n + (e :: ds).length : ℕ) : ℚ))] := by
            simp [tableFrom]

theorem runQueries_table : ∀ (qs : List (Option ℕ)) (s : State) (ds : List (Option ℕ)),
    s.directorXPositions = tableFrom 0 ds →
    (runQueries s qs).directorXPositions = tableFrom 0 (ds ++ goFirst ds qs)
  | [], s, ds, h => by simp [runQueries, goFirst, h]
  | q :: qs, s, ds, h => by
      rw [runQueries]
      by_cases hmem : q ∈ ds
      · have hsome : (alookup q s.directorXPositions).isSome := by
          rw [h]
          exact alookup_tableFrom_mem ds 0 q hmem
        obtain ⟨x, hx⟩ := Option.isSome_iff_exists.mp hsome
        have hstate : (getDirectorXPosition s q).2 = s := by
          simp [getDirectorXPosition, hx]
        rw [hstate]
        have hgo : goFirst ds (q :: qs) = goFirst ds qs := by
          simp [goFirst, hmem]
        rw [hgo]
        exact runQueries_table qs s ds h
      · have hnone : alookup q s.directorXPositions = none := by
          rw [h]
          exact alookup_tableFrom_none ds 0 q hmem
        have hstate : (getDirectorXPosition s q).2 =
            { s with directorXPositions :=
                s.directorXPositions ++ [(q, 4 * (s.directorXPositions.length : ℚ))] } := by
          simp [getDirectorXPosition, hnone]
        rw [hstate]
        have htab : s.directorXPositions ++ [(q, 4 * (s.directorXPositions.length : ℚ))] =
            tableFrom 0 (ds ++ [q]) := by
          rw [h, tableFrom_length, tableFrom_append]
          norm_num
        have ih := runQueries_table qs
          { s with directorXPositions :=
              s.directorXPositions ++ [(q, 4 * (s.directorXPositions.length : ℚ))] }
          (ds ++ [q]) (by simpa using htab)
        rw [ih]
        have hgo : goFirst ds (q :: qs) = q :: goFirst (ds ++ [q]) qs := by
          simp [goFirst, hmem]
        rw [hgo]
        simp

theorem goFirst_not_mem_seen : ∀ (qs seen : List (Option ℕ)) (x : Option ℕ),
    x ∈ goFirst seen qs → x ∉ seen
  | [], _, x, h => absurd h (List.not_mem_nil x)
  | q :: qs, seen, x, h => by
      by_cases hmem : q ∈ seen
      · rw [goFirst, if_pos hmem] at h
        exact goFirst_not_mem_seen qs seen x h
      · rw [goFirst, if_neg hmem] at h
        rcases List.mem_cons.mp h with h1 | h1
        · exact h1 ▸ hmem
        · have := goFirst_not_mem_seen qs (seen ++ [q]) x h1
          intro hx
          exact this (List.mem_append_left _ hx)

theorem goFirst_nodup : ∀ (qs seen : List (Option ℕ)), (goFirst seen qs).Nodup
  | [], _ => List.nodup_nil
  | q :: qs, seen => by
      by_cases hmem : q ∈ seen
      · rw [goFirst, if_pos hmem]
        exact goFirst_nodup qs seen
      · rw [goFirst, if_neg hmem]
        refine List.nodup_cons.mpr ⟨?_, goFirst_nodup qs (seen ++ [q])⟩
        intro hq
        have := goFirst_not_mem_seen qs (seen ++ [q]) q hq
        exact this (List.mem_append_right _ (List.mem_singleton.mpr rfl))

theorem alookup_tableFrom_get : ∀ (ds : List (Option ℕ)) (n k : ℕ) (h : k < ds.length),
    ds.Nodup → alookup (ds.get ⟨k, h⟩) (tableFrom n ds) = some (4 * ((n + k : ℕ) : ℚ))
  | d :: ds, n, 0, h, hnd => by simp [tableFrom, alookup]
  | d :: ds, n, k + 1, h, hnd => by
      have hk : k < ds.length := by
        simpa using Nat.lt_of_succ_lt_succ h
      have hmem : ds.get ⟨k, hk⟩ ∈ ds := List.get_mem ds k hk
      have hne : d ≠ ds.get ⟨k, hk⟩ := by
        intro he
        exact (List.nodup_cons.mp hnd).1 (he ▸ hmem)
      have ih := alookup_tableFrom_get ds (n + 1) k hk (List.nodup_cons.mp hnd).2
      simp only [tableFrom, alookup, List.get_cons_succ, if_neg hne, ih]
      have hn : n + 1 + k = n + (k + 1) := by omega
      rw [hn]

/-- C5: starting from the empty table, the k-th distinct director ever
queried receives axis position 4 * (k - 1) for 1-based k (here 0-based:
the entry at first-occurrence index k holds 4 * k), two directors first
queried consecutively differ by exactly 4, and querying a director that
is already assigned returns its recorded position and leaves the state
unchanged. -/
theorem director_position_assignment (qs : List (Option ℕ)) (k : ℕ)
    (hk1 : k + 1 < (goFirst [] qs).length) (s : State) (d : Option ℕ) (x : ℚ)
    (hmem : alookup d s.directorXPositions = some x) :
    alookup ((goFirst [] qs).get ⟨k, Nat.lt_of_succ_lt hk1⟩)
        (runQueries initialState qs).directorXPositions = some (4 * (k : ℚ)) ∧
    alookup ((goFirst [] qs).get ⟨k + 1, hk1⟩)
        (runQueries initialState qs).directorXPositions = some (4 * (k : ℚ) + 4) ∧
    getDirectorXPosition s d = (x, s) := by
  have htab : (runQueries initialState qs).directorXPositions =
      tableFrom 0 (goFirst [] qs) := by
    have h := runQueries_table qs initialState [] rfl
    simpa using h
  refine ⟨?_, ?_, by simp [getDirectorXPosition, hmem]⟩
  · rw [htab, alookup_tableFrom_get _ 0 k _ (goFirst_nodup qs [])]
    norm_num
  · rw [htab, alookup_tableFrom_get _ 0 (k + 1) hk1 (goFirst_nodup qs [])]
    simp only [Option.some.injEq]
    push_cast
    ring

/-- Witness for C5: three queries with one repeat; the first two
distinct directors receive 0 and 4, and a stored director is returned
memoized. -/
theorem director_position_assignment_witness :
    alookup ((goFirst [] [some 1, some 2, some 1]).get
        ⟨0, Nat.lt_of_succ_lt (by decide)⟩)
      (runQueries initialState [some 1, some 2, some 1]).directorXPositions =
        some (4 * ((0 : ℕ) : ℚ)) ∧
    alookup ((goFirst [] [some 1, some 2, some 1]).get ⟨0 + 1, by decide⟩)
      (runQueries initialState [some 1, some 2, some 1]).directorXPositions =
        some (4 * ((0 : ℕ) : ℚ) + 4) ∧
    getDirectorXPosition ⟨[(some 5, 40)], [], []⟩ (some 5) =
      (40, ⟨[(some 5, 40)], [], []⟩) :=
  director_position_assignment [some 1, some 2, some 1] 0 (by decide)
    ⟨[(some 5, 40)], [], []⟩ (some 5) 40 rfl

end MovieVis
